import Mathlib

attribute [local semireducible] Rat.add Rat.sub Rat.mul Rat.inv

/-!
Verification development for `src/accounts-analysis.py` (accounting-graph).

Shallow embedding conventions:
* Calendar days are modelled as integers (`Int`): the source normalizes every
  `datetime` to midnight and steps with `timedelta(days=1)`, so one day is one
  unit.  Calendar (year, month, day) structure is only needed by the
  month-comparison grid and is modelled separately by `CalDate`.
* Amounts and balances are modelled as rationals (`ℚ`).  The source uses Python
  binary floats (flagged in its own spec as a fidelity risk); the algorithms
  under study only add, subtract and compare, which are arithmetic-generic.
* The per-account SQLite store is modelled as association lists keyed by
  transaction id (TRANSACTIONS) and by date (CHECKPOINTS); `INSERT ... ON
  CONFLICT ... DO NOTHING` becomes insert-if-absent.
* Python dicts preserve key-insertion order, so `AccountStatement.operations`
  is an association list in insertion order.
-/

/-- Mirrors `class Operation` (src lines 31-40): id, date normalized to
midnight, label, amount (`self.value`). -/
structure Operation where
  id : Int
  date : Int
  label : String
  value : ℚ
deriving DecidableEq, Repr

/-- Insertion into the `operations` dict of `AccountStatement.add`
(src lines 50-53): append to the list under an existing date key, else append
a fresh key at the end (Python dicts keep insertion order). -/
def add_operation : List (Int × List Operation) → Operation → List (Int × List Operation)
  | [], op => [(op.date, [op])]
  | (d, l) :: rest, op =>
      if d = op.date then (d, l ++ [op]) :: rest
      else (d, l) :: add_operation rest op

/-- Mirrors `class AccountStatement` (src lines 43-69): `operations` is the
date-keyed dict of operation lists; `last_date` / `last_balance` are the
anchor date and anchor balance of the statement. -/
structure AccountStatement where
  account_id : Int
  operations : List (Int × List Operation)
  last_date : Int
  last_balance : ℚ
deriving DecidableEq, Repr

def AccountStatement.add (s : AccountStatement) (op : Operation) : AccountStatement :=
  { s with operations := add_operation s.operations op }

/-- Mirrors `AccountStatement.get_date_boundaries` (src lines 55-63):
`min_date` is the LAST key of the operations dict in insertion order,
`max_date` the FIRST key; `None` when there are no operations. -/
def get_date_boundaries (s : AccountStatement) : Option Int × Option Int :=
  ((s.operations.map Prod.fst).getLast?, (s.operations.map Prod.fst).head?)

/-- Operations stored under one date key (empty list when the date is absent). -/
def day_operations (ops : List (Int × List Operation)) (d : Int) : List Operation :=
  (ops.lookup d).getD []

/-- Mirrors `AccountStatement.operations_count` (src lines 65-69). -/
def AccountStatement.operations_count (s : AccountStatement) (d : Int) : Nat :=
  (day_operations s.operations d).length

/-- Sum of the amounts recorded on one day; the source subtracts them one by
one (src lines 246-248), which is the same as subtracting the sum. -/
def day_sum (ops : List (Int × List Operation)) (d : Int) : ℚ :=
  ((day_operations ops d).map Operation.value).sum

/-- The backward walk of `compute_balance_evolution` (src lines 245-258):
at each visited day first subtract that day's amounts from the running
balance, then record the day; then step one day back.  The fuel `n` is the
number of visited days, `last_date + 1 - min_date` in the source's loop
condition `current_date >= min_date`. -/
def balance_walk (ops : List (Int × List Operation)) (balance : ℚ) (date : Int) :
    Nat → List (Int × ℚ)
  | 0 => []
  | n + 1 =>
      let b := balance - day_sum ops date
      (date, b) :: balance_walk ops b (date - 1) n

/-- The tuple returned by `compute_balance_evolution` (src lines 263-266). -/
structure EvolutionResult where
  balance_over_time : List (Int × ℚ)
  min_date : Int
  max_date : Int
  min_balance : ℚ
  min_balance_date : Int
  max_balance : ℚ
  max_balance_date : Int
deriving DecidableEq, Repr

/-- Running minimum tracking of src lines 251-253 (`if current_balance <
min_balance`), folded over the recorded entries in walk order.  The source
updates interleaved with the walk; folding over the produced entries in the
same order computes the same pair. -/
def min_track (init : ℚ × Int) (series : List (Int × ℚ)) : ℚ × Int :=
  series.foldl (fun acc p => if p.2 < acc.1 then (p.2, p.1) else acc) init

/-- Running maximum tracking of src lines 254-256 (`if current_balance >
max_balance`). -/
def max_track (init : ℚ × Int) (series : List (Int × ℚ)) : ℚ × Int :=
  series.foldl (fun acc p => if acc.1 < p.2 then (p.2, p.1) else acc) init

/-- Mirrors `compute_balance_evolution` (src lines 235-266), minus the two
side calls `balance_debug` and `balance_health_check` (the health check is
modelled separately by `balance_health_check`; it does not change the series).
When `operations` is empty Python would compare against `None` and raise;
`analyse_operations` (src line 97) only calls this with non-empty operations,
and the `getD (last_date + 1)` default makes that unreached case an empty
walk. -/
def compute_balance_evolution (s : AccountStatement) : EvolutionResult :=
  let min_date := (get_date_boundaries s).1.getD (s.last_date + 1)
  let series := balance_walk s.operations s.last_balance s.last_date
      (s.last_date + 1 - min_date).toNat
  let mn := min_track (s.last_balance, s.last_date) series
  let mx := max_track (s.last_balance, s.last_date) series
  ⟨series, min_date, s.last_date, mn.1, mn.2, mx.1, mx.2⟩

/-- A row of the CHECKPOINTS table (src lines 542-547): BALANCE and the
nullable TRANSACTIONS_COUNT. -/
structure CheckpointRow where
  balance : ℚ
  transactions_count : Option Int
deriving DecidableEq, Repr

/-- Mirrors `check_balance_in_checkpoints` (src lines 298-312).  Returns the
coherence verdict and the stored balance (when a checkpoint exists):
`eq_balance` is the 1e-5 tolerance comparison, `eq_transaction_count` is true
for a NULL stored count, `lt_transaction_count` is false for a NULL stored
count, and the verdict is `(eq_transaction_count && eq_balance) ||
lt_transaction_count`. -/
def check_balance_in_checkpoints (checkpoints : List (Int × CheckpointRow)) (date : Int)
    (expected_balance : ℚ) (expected_transaction_count : Nat) : Bool × Option ℚ :=
  match checkpoints.lookup date with
  | none => (true, none)
  | some row =>
      let checked_balance := row.balance
      let eq_balance : Bool := decide (|checked_balance - expected_balance| ≤ 1 / 100000)
      let eq_transaction_count : Bool :=
        match row.transactions_count with
        | some c => decide (c = (expected_transaction_count : Int))
        | none => true
      let lt_transaction_count : Bool :=
        match row.transactions_count with
        | some c => decide (c < (expected_transaction_count : Int))
        | none => false
      ((eq_transaction_count && eq_balance) || lt_transaction_count, some checked_balance)

/-- The data printed when `balance_health_check` raises `ValueError`
(src lines 322-325): offending date, reconstructed balance, conflicting
checkpoint balance. -/
structure HealthFailure where
  date : Int
  balance : ℚ
  previous_balance : Option ℚ
deriving DecidableEq, Repr

/-- Mirrors `balance_health_check` (src lines 315-326): for each recorded date
(in series order) compare against the stored checkpoint, using the operation
count of the day immediately BEFORE the date (src line 320); raise at the
first incoherent date. -/
def balance_health_check (s : AccountStatement) (balance_over_time : List (Int × ℚ))
    (checkpoints : List (Int × CheckpointRow)) : Except HealthFailure Unit :=
  match balance_over_time with
  | [] => Except.ok ()
  | (date, bal) :: rest =>
      let res := check_balance_in_checkpoints checkpoints date bal
        (s.operations_count (date - 1))
      if res.1 then balance_health_check s rest checkpoints
      else Except.error ⟨date, bal, res.2⟩

/-- Variant of `balance_health_check` that takes the per-date transaction
count as an explicit function; used to state which count the source compares
(claim C5). -/
def health_check_with_counts (tc : Int → Nat) (balance_over_time : List (Int × ℚ))
    (checkpoints : List (Int × CheckpointRow)) : Except HealthFailure Unit :=
  match balance_over_time with
  | [] => Except.ok ()
  | (date, bal) :: rest =>
      let res := check_balance_in_checkpoints checkpoints date bal (tc date)
      if res.1 then health_check_with_counts tc rest checkpoints
      else Except.error ⟨date, bal, res.2⟩

/-- The per-date verdict of the health check at a series entry. -/
def date_check_ok (s : AccountStatement) (checkpoints : List (Int × CheckpointRow))
    (p : Int × ℚ) : Bool :=
  (check_balance_in_checkpoints checkpoints p.1 p.2 (s.operations_count (p.1 - 1))).1

/-- A row of the TRANSACTIONS table (src lines 532-539), keyed by ID. -/
structure TransactionRow where
  date : Int
  label : String
  amount : ℚ
deriving DecidableEq, Repr

/-- The per-account persistent store: TRANSACTIONS keyed by id, CHECKPOINTS
keyed by date. -/
structure DatabaseState where
  transactions : List (Int × TransactionRow)
  checkpoints : List (Int × CheckpointRow)
deriving DecidableEq, Repr

/-- The operations of a statement in the iteration order of
`write_operations_in_database` / `search_operations_in_database`
(src lines 354-355, 368-369): date keys in insertion order, each date's list
in order. -/
def statement_operations (s : AccountStatement) : List Operation :=
  (s.operations.map Prod.snd).flatten

/-- One `INSERT INTO TRANSACTIONS ... ON CONFLICT(ID) DO NOTHING`
(src lines 356-360). -/
def insert_transaction (t : List (Int × TransactionRow)) (op : Operation) :
    List (Int × TransactionRow) :=
  if (t.lookup op.id).isSome then t else t ++ [(op.id, ⟨op.date, op.label, op.value⟩)]

/-- Mirrors `write_operations_in_database` (src lines 353-361). -/
def write_operations_in_database (s : AccountStatement) (t : List (Int × TransactionRow)) :
    List (Int × TransactionRow) :=
  (statement_operations s).foldl insert_transaction t

/-- The Python exception raised when `Operation.debug` is called without its
required `csv_output_mode` argument (src line 374 calls `op.debug()` while
the signature at line 38 demands the argument). -/
inductive PythonError where
  | typeError (message : String)
deriving DecidableEq, Repr

/-- The loop of `search_operations_in_database` (src lines 368-374): for each
operation look its id up in TRANSACTIONS; when absent the source evaluates
`op.debug()` which raises `TypeError` (missing `csv_output_mode`), so the
traversal aborts at the first not-yet-stored operation. -/
def search_operations_loop (t : List (Int × TransactionRow)) :
    List Operation → Except PythonError Unit
  | [] => Except.ok ()
  | op :: rest =>
      match t.lookup op.id with
      | some _ => search_operations_loop t rest
      | none => Except.error (PythonError.typeError
          "Operation.debug missing 1 required positional argument: csv_output_mode")

/-- Mirrors `search_operations_in_database` (src lines 364-375). -/
def search_operations_in_database (s : AccountStatement) (t : List (Int × TransactionRow)) :
    Except PythonError Unit :=
  search_operations_loop t (statement_operations s)

/-- Insertion step of a date-descending insertion sort, modelling
`ORDER BY DATE_EPOCH DESC` of src line 380 (SQLite leaves the relative order
of equal dates unspecified; any deterministic order is faithful). -/
def insert_row_by_date_desc (r : Int × TransactionRow) :
    List (Int × TransactionRow) → List (Int × TransactionRow)
  | [] => [r]
  | x :: xs => if r.2.date ≤ x.2.date then x :: insert_row_by_date_desc r xs
               else r :: x :: xs

def order_by_date_desc (l : List (Int × TransactionRow)) : List (Int × TransactionRow) :=
  l.foldr insert_row_by_date_desc []

/-- Mirrors `read_transactions_from_database` (src lines 378-384): rebuild an
`AccountStatement` from all stored transactions in date-descending order.
The Python object starts with `last_date = last_balance = None`; these fields
are only read after `update_statements_details` overwrites them, so the
placeholders 0 are never observed. -/
def read_transactions_from_database (account_id : Int) (t : List (Int × TransactionRow)) :
    AccountStatement :=
  (order_by_date_desc t).foldl
    (fun acc r => acc.add ⟨r.1, r.2.date, r.2.label, r.2.amount⟩)
    { account_id := account_id, operations := [], last_date := 0, last_balance := 0 }

/-- Mirrors `update_statements_details` (src lines 449-451). -/
def update_statements_details (new_history whole_history : AccountStatement) :
    AccountStatement :=
  { whole_history with
      last_date := new_history.last_date
      last_balance := new_history.last_balance }

/-- The post-merge statement on which analysis runs (src lines 438-439). -/
def whole_statement (new_statements : AccountStatement) (t : List (Int × TransactionRow)) :
    AccountStatement :=
  update_statements_details new_statements
    (read_transactions_from_database new_statements.account_id t)

/-- Mirrors `get_last_date_transactions_count` (src lines 453-459): the number
of stored transactions dated exactly on the anchor date. -/
def get_last_date_transactions_count (s : AccountStatement)
    (t : List (Int × TransactionRow)) : Int :=
  ((t.filter (fun r => r.2.date == s.last_date)).length : Int)

/-- Mirrors `update_checkpoints` (src lines 461-469): `INSERT INTO CHECKPOINTS
... ON CONFLICT(DATE_EPOCH) DO NOTHING` for the anchor date. -/
def update_checkpoints (s : AccountStatement) (last_date_transactions_count : Int)
    (checkpoints : List (Int × CheckpointRow)) : List (Int × CheckpointRow) :=
  if (checkpoints.lookup s.last_date).isSome then checkpoints
  else checkpoints ++ [(s.last_date, ⟨s.last_balance, some last_date_transactions_count⟩)]

/-- The failure behaviour of `analyse_operations` (src lines 96-107): with no
operations nothing is analysed (and nothing can raise); otherwise
`compute_balance_evolution` runs `balance_health_check`, whose `ValueError`
is what the caller catches. -/
def analyse_operations_check (s : AccountStatement)
    (checkpoints : List (Int × CheckpointRow)) : Except HealthFailure Unit :=
  if s.operations.isEmpty then Except.ok ()
  else balance_health_check s (compute_balance_evolution s).balance_over_time checkpoints

/-- Mirrors `prepare_and_analyse_history` (src lines 431-447).  In dry-run
mode only `search_operations_in_database` runs (read-only; its possible
`TypeError` is returned).  Otherwise: merge the new operations, re-read the
whole ledger, analyse it, and only when the health check did not raise write
the anchor checkpoint; the `ValueError` is caught (src lines 444-446), so the
function always returns a state. -/
def prepare_and_analyse_history (new_statements : AccountStatement) (db : DatabaseState)
    (dry_run_mode : Bool) : DatabaseState × Except PythonError Unit :=
  if dry_run_mode then
    (db, search_operations_in_database new_statements db.transactions)
  else
    let t := write_operations_in_database new_statements db.transactions
    let whole := whole_statement new_statements t
    match analyse_operations_check whole db.checkpoints with
    | Except.error _ => ({ transactions := t, checkpoints := db.checkpoints }, Except.ok ())
    | Except.ok _ =>
        ({ transactions := t,
           checkpoints := update_checkpoints whole
             (get_last_date_transactions_count whole t) db.checkpoints },
         Except.ok ())

/-- The list of days from `lo` to `hi` inclusive (empty when `hi < lo`). -/
def date_range (lo hi : Int) : List Int :=
  (List.range (hi + 1 - lo).toNat).map (fun i : Nat => lo + (i : Int))

/-- Sum of all amounts dated between `lo` and `hi` inclusive. -/
def amounts_between (ops : List (Int × List Operation)) (lo hi : Int) : ℚ :=
  ((date_range lo hi).map (day_sum ops)).sum

/-- Calendar date for the month-comparison grid: the grid logic reads only
year, month and day-of-month and does no day arithmetic. -/
structure CalDate where
  year : Int
  month : Int
  day : Nat
deriving DecidableEq, Repr

def month_index (d : CalDate) : Int := 12 * d.year + d.month

/-- Mirrors `calculate_month_difference` (src lines 337-339):
`relativedelta(last_date, current_date.replace(day=1))` gives `months +
12*years` equal to the difference of month indices, because the `day=1`
normalization of the second argument means relativedelta's day-remainder
adjustment never fires. -/
def calculate_month_difference (last_date current_date : CalDate) : Int :=
  month_index last_date - month_index current_date

/-- One grid row: `[None] * (DAYS_IN_MONTH + 1)`, 32 slots (src line 347). -/
def blank_row : List (Option ℚ) := List.replicate 32 none

/-- The `while len(balance_compared) <= month_diff: append` loop
(src lines 346-347). -/
def ensure_rows (g : List (List (Option ℚ))) (m : Nat) : List (List (Option ℚ)) :=
  g ++ List.replicate (m + 1 - g.length) blank_row

/-- One iteration of the loop body of `compute_balance_compared`
(src lines 345-349): grow the grid to reach row `m`, then set column `day`
of row `m` (the Python `line[...] = ...` mutates the row in place). -/
def place_balance (g : List (List (Option ℚ))) (m day : Nat) (v : ℚ) :
    List (List (Option ℚ)) :=
  let g2 := ensure_rows g m
  g2.set m ((g2.getD m blank_row).set day (some v))

/-- Mirrors `compute_balance_compared` (src lines 342-350), iterating over the
series pairs in dict order.  Negative month differences (a series date in a
month after the anchor's) are outside the modelled scope: there Python would
index from the end of the list or raise `IndexError`; the theorems restrict
to dates at or before the anchor month. -/
def compute_balance_compared (balance : List (CalDate × ℚ)) (last_date : CalDate) :
    List (List (Option ℚ)) :=
  balance.foldl
    (fun g p => place_balance g (calculate_month_difference last_date p.1).toNat p.1.day p.2)
    []

/-- Cell access in the grid (row, then column), absent cells read as `none`. -/
def cell (g : List (List (Option ℚ))) (r c : Nat) : Option ℚ :=
  (g.getD r []).getD c none

/-- The (row, column) slot targeted by one series pair. -/
def grid_key (last_date : CalDate) (p : CalDate × ℚ) : Nat × Nat :=
  ((calculate_month_difference last_date p.1).toNat, p.1.day)

/-- The post-merge statement an import analyses: operations merged into the
store, the whole ledger re-read, anchor data taken from the new statement
(src lines 437-439). -/
def merged_statement (stmt : AccountStatement) (db : DatabaseState) : AccountStatement :=
  whole_statement stmt (write_operations_in_database stmt db.transactions)

/-- The daily balance series reconstructed by an import. -/
def reconstructed_series (stmt : AccountStatement) (db : DatabaseState) : List (Int × ℚ) :=
  (compute_balance_evolution (merged_statement stmt db)).balance_over_time

/-- The end-to-end scenario of the spec, with March days as day numbers:
anchor balance 1000 on day 31, one transaction of -50 on day 30, one of +20
on day 15. -/
def scenario_statement : AccountStatement :=
  { account_id := 1,
    operations := [(30, [⟨7, 30, "virement", -50⟩]), (15, [⟨8, 15, "depot", 20⟩])],
    last_date := 31, last_balance := 1000 }

/-- Anchor balance 100 on day 10, a single refund of -10 dated on the anchor
day itself. -/
def refund_statement : AccountStatement :=
  { account_id := 1,
    operations := [(10, [⟨1, 10, "refund", -10⟩])],
    last_date := 10, last_balance := 100 }

/-- Anchor balance 100 on day 11, a single +10 transaction on day 10. -/
def plus_op_statement : AccountStatement :=
  { account_id := 1,
    operations := [(10, [⟨1, 10, "credit", 10⟩])],
    last_date := 11, last_balance := 100 }

/-- One operation on day 10 and none on day 9. -/
def single_op_statement : AccountStatement :=
  { account_id := 1,
    operations := [(10, [⟨1, 10, "op", 5⟩])],
    last_date := 10, last_balance := 5 }

/-- Three operations on day 9, anchor balance 90 on day 10. -/
def backfill_statement : AccountStatement :=
  { account_id := 1,
    operations := [(9, [⟨1, 9, "a", 5⟩, ⟨2, 9, "b", 3⟩, ⟨3, 9, "c", 2⟩])],
    last_date := 10, last_balance := 90 }

/-- A checkpoint for day 10 certified from 2 transactions with balance 100. -/
def backfill_checkpoints : List (Int × CheckpointRow) := [(10, ⟨100, some 2⟩)]

/-- Two operations on day 9, anchor balance 95 on day 10: reconstruction from
the same 2 transactions now yields 95 where the stored checkpoint says 100. -/
def conflict_statement : AccountStatement :=
  { account_id := 1,
    operations := [(9, [⟨1, 9, "a", 5⟩, ⟨2, 9, "b", 0⟩])],
    last_date := 10, last_balance := 95 }

/-- An empty ledger with a stored checkpoint (balance 100, count 2) for
day 10. -/
def conflict_db : DatabaseState :=
  { transactions := [], checkpoints := [(10, ⟨100, some 2⟩)] }

/-- A checkpoint row for day 5 whose transaction count is NULL. -/
def null_count_checkpoints : List (Int × CheckpointRow) := [(5, ⟨50, none⟩)]

/-- A statement holding one operation whose id is not yet stored. -/
def dry_run_statement : AccountStatement :=
  { account_id := 1,
    operations := [(10, [⟨1, 10, "new op", 5⟩])],
    last_date := 10, last_balance := 5 }

/-- A stored ledger with transactions on days 30 and 15. -/
def dense_witness_table : List (Int × TransactionRow) :=
  [(7, ⟨30, "virement", -50⟩), (8, ⟨15, "depot", 20⟩)]

/-- A new statement carrying only the anchor: balance 1000 on day 31. -/
def dense_witness_statement : AccountStatement :=
  { account_id := 1, operations := [], last_date := 31, last_balance := 1000 }

/-! ## Lemmas about the backward walk -/

theorem date_range_eq_nil (lo hi : Int) (h : hi < lo) : date_range lo hi = [] := by
  unfold date_range
  have : (hi + 1 - lo).toNat = 0 := by omega
  simp [this]

theorem date_range_self (d : Int) : date_range d d = [d] := by
  unfold date_range
  have : (d + 1 - d).toNat = 1 := by omega
  have h1 : List.range 1 = [0] := rfl
  simp [this, h1]

theorem date_range_concat (lo hi : Int) (h : lo ≤ hi) :
    date_range lo hi = date_range lo (hi - 1) ++ [hi] := by
  unfold date_range
  have h1 : (hi + 1 - lo).toNat = (hi - 1 + 1 - lo).toNat + 1 := by omega
  rw [h1, List.range_succ, List.map_append]
  congr 1
  simp only [List.map_cons, List.map_nil]
  congr 1
  omega

theorem amounts_between_self (ops : List (Int × List Operation)) (d : Int) :
    amounts_between ops d d = day_sum ops d := by
  simp [amounts_between, date_range_self]

theorem amounts_between_concat (ops : List (Int × List Operation)) (lo hi : Int)
    (h : lo ≤ hi) :
    amounts_between ops lo hi = amounts_between ops lo (hi - 1) + day_sum ops hi := by
  simp [amounts_between, date_range_concat lo hi h]

/-- Value recorded by the walk for a day in its range: the starting balance
minus all amounts dated between that day and the starting day inclusive. -/
theorem balance_walk_lookup (n : Nat) :
    ∀ (ops : List (Int × List Operation)) (b : ℚ) (date d : Int),
    (balance_walk ops b date n).lookup d =
      if d ≤ date ∧ date - n < d then some (b - amounts_between ops d date) else none := by
  induction n with
  | zero =>
      intro ops b date d
      simp only [balance_walk, List.lookup]
      rw [if_neg]
      omega
  | succ n ih =>
      intro ops b date d
      rw [show balance_walk ops b date (n + 1)
          = (date, b - day_sum ops date)
            :: balance_walk ops (b - day_sum ops date) (date - 1) n from rfl,
        List.lookup_cons]
      by_cases hd : d = date
      · subst hd
        simp only [beq_self_eq_true]
        rw [if_pos (by constructor <;> omega), amounts_between_self]
      · simp only [beq_false_of_ne hd]
        rw [ih]
        by_cases hc : d ≤ date - 1 ∧ date - 1 - (n : Int) < d
        · rw [if_pos hc, if_pos (by push_cast; omega),
            amounts_between_concat ops d date (by omega)]
          exact congrArg some (by ring)
        · rw [if_neg hc, if_neg (by omega)]

/-- The days recorded by the walk are exactly the `n` days counting back from
the starting day. -/
theorem balance_walk_mem (n : Nat) :
    ∀ (ops : List (Int × List Operation)) (b : ℚ) (date d : Int),
    d ∈ (balance_walk ops b date n).map Prod.fst ↔ (date - n < d ∧ d ≤ date) := by
  induction n with
  | zero =>
      intro ops b date d
      simp only [balance_walk, List.map_nil, List.mem_nil_iff, false_iff]
      omega
  | succ n ih =>
      intro ops b date d
      simp only [balance_walk, List.map_cons, List.mem_cons, ih]
      push_cast
      omega

/-- Each day is recorded at most once by the walk. -/
theorem balance_walk_nodup (n : Nat) :
    ∀ (ops : List (Int × List Operation)) (b : ℚ) (date : Int),
    ((balance_walk ops b date n).map Prod.fst).Nodup := by
  induction n with
  | zero => intro ops b date; simp [balance_walk]
  | succ n ih =>
      intro ops b date
      simp only [balance_walk, List.map_cons, List.nodup_cons]
      refine ⟨fun hmem => ?_, ih ops _ (date - 1)⟩
      rw [balance_walk_mem] at hmem
      omega

/-! ## Lemmas about the running extrema tracking -/

theorem min_track_fst_le (l : List (Int × ℚ)) :
    ∀ (b : ℚ) (d : Int), (min_track (b, d) l).1 ≤ b := by
  induction l with
  | nil => intro b d; exact le_refl b
  | cons p l ih =>
      intro b d
      rw [show min_track (b, d) (p :: l)
          = min_track (if p.2 < b then (p.2, p.1) else (b, d)) l from rfl]
      by_cases hp : p.2 < b
      · rw [if_pos hp]; exact le_trans (ih p.2 p.1) (le_of_lt hp)
      · rw [if_neg hp]; exact ih b d

theorem max_track_fst_ge (l : List (Int × ℚ)) :
    ∀ (b : ℚ) (d : Int), b ≤ (max_track (b, d) l).1 := by
  induction l with
  | nil => intro b d; exact le_refl b
  | cons p l ih =>
      intro b d
      rw [show max_track (b, d) (p :: l)
          = max_track (if b < p.2 then (p.2, p.1) else (b, d)) l from rfl]
      by_cases hp : b < p.2
      · rw [if_pos hp]; exact le_trans (le_of_lt hp) (ih p.2 p.1)
      · rw [if_neg hp]; exact ih b d

/-- Full characterization of the running-minimum fold: its value is the
minimum of the initial balance and all recorded balances, and when it is
strictly below the initial balance, its date is the first recorded entry
attaining it (every earlier entry is strictly larger); when it is not, the
initial pair survives unchanged. -/
theorem min_track_spec (l : List (Int × ℚ)) :
    ∀ (b : ℚ) (d : Int),
    (min_track (b, d) l).1 = (l.map Prod.snd).foldl min b
    ∧ ((min_track (b, d) l).1 < b →
        ∃ s₁ s₂, l = s₁ ++ ((min_track (b, d) l).2, (min_track (b, d) l).1) :: s₂
          ∧ ∀ p ∈ s₁, (min_track (b, d) l).1 < p.2)
    ∧ (¬ (min_track (b, d) l).1 < b → min_track (b, d) l = (b, d)) := by
  induction l with
  | nil =>
      intro b d
      exact ⟨rfl, fun h => absurd h (lt_irrefl b), fun _ => rfl⟩
  | cons p l ih =>
      intro b d
      rw [show min_track (b, d) (p :: l)
          = min_track (if p.2 < b then (p.2, p.1) else (b, d)) l from rfl]
      by_cases hp : p.2 < b
      · rw [if_pos hp]
        obtain ⟨ha, hb, hc⟩ := ih p.2 p.1
        refine ⟨?_, ?_, ?_⟩
        · rw [ha, List.map_cons, List.foldl_cons, min_eq_right (le_of_lt hp)]
        · intro _
          by_cases h2 : (min_track (p.2, p.1) l).1 < p.2
          · obtain ⟨s₁, s₂, hsplit, hall⟩ := hb h2
            refine ⟨p :: s₁, s₂, ?_, ?_⟩
            · rw [List.cons_append]; exact congrArg (List.cons p) hsplit
            · intro q hq
              rcases List.mem_cons.mp hq with h | h
              · rw [h]; exact h2
              · exact hall q h
          · have heq := hc h2
            refine ⟨[], l, ?_, ?_⟩
            · rw [heq]; rfl
            · intro q hq; exact absurd hq (List.not_mem_nil q)
        · intro hnlt
          exact absurd (lt_of_le_of_lt (min_track_fst_le l p.2 p.1) hp) hnlt
      · rw [if_neg hp]
        obtain ⟨ha, hb, hc⟩ := ih b d
        refine ⟨?_, ?_, ?_⟩
        · rw [ha, List.map_cons, List.foldl_cons, min_eq_left (le_of_not_lt hp)]
        · intro hlt
          obtain ⟨s₁, s₂, hsplit, hall⟩ := hb hlt
          refine ⟨p :: s₁, s₂, ?_, ?_⟩
          · rw [List.cons_append]; exact congrArg (List.cons p) hsplit
          · intro q hq
            rcases List.mem_cons.mp hq with h | h
            · rw [h]; exact lt_of_lt_of_le hlt (le_of_not_lt hp)
            · exact hall q h
        · exact hc

/-- Mirror of `min_track_spec` for the running maximum. -/
theorem max_track_spec (l : List (Int × ℚ)) :
    ∀ (b : ℚ) (d : Int),
    (max_track (b, d) l).1 = (l.map Prod.snd).foldl max b
    ∧ (b < (max_track (b, d) l).1 →
        ∃ s₁ s₂, l = s₁ ++ ((max_track (b, d) l).2, (max_track (b, d) l).1) :: s₂
          ∧ ∀ p ∈ s₁, p.2 < (max_track (b, d) l).1)
    ∧ (¬ b < (max_track (b, d) l).1 → max_track (b, d) l = (b, d)) := by
  induction l with
  | nil =>
      intro b d
      exact ⟨rfl, fun h => absurd h (lt_irrefl b), fun _ => rfl⟩
  | cons p l ih =>
      intro b d
      rw [show max_track (b, d) (p :: l)
          = max_track (if b < p.2 then (p.2, p.1) else (b, d)) l from rfl]
      by_cases hp : b < p.2
      · rw [if_pos hp]
        obtain ⟨ha, hb, hc⟩ := ih p.2 p.1
        refine ⟨?_, ?_, ?_⟩
        · rw [ha, List.map_cons, List.foldl_cons, max_eq_right (le_of_lt hp)]
        · intro _
          by_cases h2 : p.2 < (max_track (p.2, p.1) l).1
          · obtain ⟨s₁, s₂, hsplit, hall⟩ := hb h2
            refine ⟨p :: s₁, s₂, ?_, ?_⟩
            · rw [List.cons_append]; exact congrArg (List.cons p) hsplit
            · intro q hq
              rcases List.mem_cons.mp hq with h | h
              · rw [h]; exact h2
              · exact hall q h
          · have heq := hc h2
            refine ⟨[], l, ?_, ?_⟩
            · rw [heq]; rfl
            · intro q hq; exact absurd hq (List.not_mem_nil q)
        · intro hnlt
          exact absurd (lt_of_lt_of_le hp (max_track_fst_ge l p.2 p.1)) hnlt
      · rw [if_neg hp]
        obtain ⟨ha, hb, hc⟩ := ih b d
        refine ⟨?_, ?_, ?_⟩
        · rw [ha, List.map_cons, List.foldl_cons, max_eq_left (le_of_not_lt hp)]
        · intro hlt
          obtain ⟨s₁, s₂, hsplit, hall⟩ := hb hlt
          refine ⟨p :: s₁, s₂, ?_, ?_⟩
          · rw [List.cons_append]; exact congrArg (List.cons p) hsplit
          · intro q hq
            rcases List.mem_cons.mp hq with h | h
            · rw [h]; exact lt_of_le_of_lt (le_of_not_lt hp) hlt
            · exact hall q h
        · exact hc

/-! ## Lemmas about the health check -/

theorem balance_health_check_cons (s : AccountStatement) (cps : List (Int × CheckpointRow))
    (p : Int × ℚ) (rest : List (Int × ℚ)) :
    balance_health_check s (p :: rest) cps
      = if date_check_ok s cps p then balance_health_check s rest cps
        else Except.error ⟨p.1, p.2,
          (check_balance_in_checkpoints cps p.1 p.2 (s.operations_count (p.1 - 1))).2⟩ := rfl

/-- The health check succeeds exactly when every recorded date passes its
per-date checkpoint comparison. -/
theorem balance_health_check_ok_iff (s : AccountStatement)
    (cps : List (Int × CheckpointRow)) :
    ∀ series : List (Int × ℚ),
    balance_health_check s series cps = Except.ok () ↔
      ∀ p ∈ series, date_check_ok s cps p = true := by
  intro series
  induction series with
  | nil => simp [balance_health_check]
  | cons p rest ih =>
      rw [balance_health_check_cons]
      by_cases h : date_check_ok s cps p
      · simp [h, ih, List.forall_mem_cons]
      · simp [h, List.forall_mem_cons]

/-- When some recorded date fails its comparison, the health check raises at
the FIRST failing date: the series splits into a passing prefix and the
failing entry, the error carries that entry, and the entries after it do not
influence the result (they are never examined). -/
theorem balance_health_check_error_split (s : AccountStatement)
    (cps : List (Int × CheckpointRow)) :
    ∀ series : List (Int × ℚ),
    (∃ p ∈ series, date_check_ok s cps p = false) →
    ∃ s₁ x s₂, series = s₁ ++ x :: s₂
      ∧ (∀ y ∈ s₁, date_check_ok s cps y = true)
      ∧ date_check_ok s cps x = false
      ∧ balance_health_check s series cps
          = Except.error ⟨x.1, x.2,
              (check_balance_in_checkpoints cps x.1 x.2 (s.operations_count (x.1 - 1))).2⟩
      ∧ balance_health_check s (s₁ ++ [x]) cps = balance_health_check s series cps := by
  intro series
  induction series with
  | nil =>
      rintro ⟨p, hp, -⟩
      exact absurd hp (List.not_mem_nil p)
  | cons p rest ih =>
      intro hex
      by_cases h : date_check_ok s cps p
      · have hex2 : ∃ q ∈ rest, date_check_ok s cps q = false := by
          obtain ⟨q, hq, hqf⟩ := hex
          rcases List.mem_cons.mp hq with hq1 | hq2
          · rw [hq1, h] at hqf; cases hqf
          · exact ⟨q, hq2, hqf⟩
        obtain ⟨s₁, x, s₂, hsp, hpre, hx, herr, htr⟩ := ih hex2
        refine ⟨p :: s₁, x, s₂, ?_, ?_, hx, ?_, ?_⟩
        · rw [List.cons_append]; exact congrArg (List.cons p) hsp
        · intro y hy
          rcases List.mem_cons.mp hy with hy1 | hy2
          · rw [hy1]; exact h
          · exact hpre y hy2
        · rw [balance_health_check_cons, if_pos h, herr]
        · rw [List.cons_append, balance_health_check_cons, if_pos h, htr,
            balance_health_check_cons, if_pos h]
      · refine ⟨[], p, rest, rfl, ?_, Bool.eq_false_iff.mpr h, ?_, ?_⟩
        · intro y hy; exact absurd hy (List.not_mem_nil y)
        · rw [balance_health_check_cons, if_neg h]
        · rw [List.nil_append, balance_health_check_cons, if_neg h,
            balance_health_check_cons, if_neg h]

/-- A health-check error always reports a date of the series, whose per-date
comparison failed, together with the recorded balance of that entry. -/
theorem balance_health_check_error_mem (s : AccountStatement)
    (cps : List (Int × CheckpointRow)) :
    ∀ (series : List (Int × ℚ)) (e : HealthFailure),
    balance_health_check s series cps = Except.error e →
    ∃ bal, (e.date, bal) ∈ series ∧ date_check_ok s cps (e.date, bal) = false
      ∧ e.balance = bal := by
  intro series
  induction series with
  | nil => intro e he; cases he
  | cons p rest ih =>
      intro e he
      rw [balance_health_check_cons] at he
      by_cases h : date_check_ok s cps p
      · rw [if_pos h] at he
        obtain ⟨bal, hmem, hf, hb⟩ := ih e he
        exact ⟨bal, List.mem_cons_of_mem p hmem, hf, hb⟩
      · rw [if_neg h] at he
        have he2 := (Except.error.injEq _ _).mp he
        refine ⟨p.2, ?_, ?_, ?_⟩
        · rw [← he2]; exact List.mem_cons_self p rest
        · rw [← he2]; exact Bool.eq_false_iff.mpr h
        · rw [← he2]

/-- In a list whose first components are distinct, a key determines its
associated value. -/
theorem nodup_fst_value_eq :
    ∀ (l : List (Int × ℚ)) (d : Int) (b b' : ℚ),
    (l.map Prod.fst).Nodup → (d, b) ∈ l → (d, b') ∈ l → b = b' := by
  intro l
  induction l with
  | nil => intro d b b' _ h; exact absurd h (List.not_mem_nil _)
  | cons q rest ih =>
      intro d b b' hnd h1 h2
      rw [List.map_cons, List.nodup_cons] at hnd
      rcases List.mem_cons.mp h1 with ha | ha
      · rcases List.mem_cons.mp h2 with hb | hb
        · rw [← ha] at hb; exact (Prod.mk.injEq _ _ _ _ |>.mp hb).2.symm
        · exfalso
          apply hnd.1
          rw [show q.1 = d from (congrArg Prod.fst ha).symm]
          exact List.mem_map_of_mem Prod.fst hb
      · rcases List.mem_cons.mp h2 with hb | hb
        · exfalso
          apply hnd.1
          rw [show q.1 = d from (congrArg Prod.fst hb).symm]
          exact List.mem_map_of_mem Prod.fst ha
        · exact ih d b b' hnd.2 ha hb

/-! ## Projection lemmas for `compute_balance_evolution` -/

theorem compute_balance_evolution_series (s : AccountStatement) :
    (compute_balance_evolution s).balance_over_time
    = balance_walk s.operations s.last_balance s.last_date
        (s.last_date + 1 - ((get_date_boundaries s).1.getD (s.last_date + 1))).toNat := rfl

theorem compute_balance_evolution_min (s : AccountStatement) :
    ((compute_balance_evolution s).min_balance, (compute_balance_evolution s).min_balance_date)
    = min_track (s.last_balance, s.last_date)
        (compute_balance_evolution s).balance_over_time := rfl

theorem compute_balance_evolution_max (s : AccountStatement) :
    ((compute_balance_evolution s).max_balance, (compute_balance_evolution s).max_balance_date)
    = max_track (s.last_balance, s.last_date)
        (compute_balance_evolution s).balance_over_time := rfl

/-! ## Lemmas about association-list lookups and idempotent writes -/

theorem lookup_cons_eq {β : Type} (p : Int × β) (l : List (Int × β)) (a : Int) :
    (p :: l).lookup a = if a = p.1 then some p.2 else l.lookup a := by
  cases p with
  | mk k v =>
      rw [List.lookup_cons]
      by_cases h : a = k
      · subst h; simp
      · simp [h, beq_false_of_ne h]

theorem lookup_append_of_isSome {β : Type} (l₁ l₂ : List (Int × β)) (k : Int)
    (h : (l₁.lookup k).isSome) : (l₁ ++ l₂).lookup k = l₁.lookup k := by
  induction l₁ with
  | nil => cases h
  | cons p l ih =>
      rw [List.cons_append, lookup_cons_eq, lookup_cons_eq]
      by_cases hk : k = p.1
      · rw [if_pos hk, if_pos hk]
      · rw [if_neg hk, if_neg hk]
        rw [lookup_cons_eq, if_neg hk] at h
        exact ih h

theorem lookup_append_of_none {β : Type} (l₁ l₂ : List (Int × β)) (k : Int)
    (h : l₁.lookup k = none) : (l₁ ++ l₂).lookup k = l₂.lookup k := by
  induction l₁ with
  | nil => rw [List.nil_append]
  | cons p l ih =>
      rw [lookup_cons_eq] at h
      by_cases hk : k = p.1
      · rw [if_pos hk] at h; cases h
      · rw [if_neg hk] at h
        rw [List.cons_append, lookup_cons_eq, if_neg hk]
        exact ih h

theorem insert_transaction_lookup_self (t : List (Int × TransactionRow)) (op : Operation) :
    ((insert_transaction t op).lookup op.id).isSome := by
  unfold insert_transaction
  by_cases h : (t.lookup op.id).isSome
  · rw [if_pos h]; exact h
  · rw [if_neg h]
    rw [lookup_append_of_none t _ op.id (Option.not_isSome_iff_eq_none.mp h),
      lookup_cons_eq, if_pos rfl]
    rfl

theorem insert_transaction_preserves (t : List (Int × TransactionRow)) (op : Operation)
    (k : Int) (h : (t.lookup k).isSome) :
    ((insert_transaction t op).lookup k).isSome := by
  unfold insert_transaction
  by_cases h2 : (t.lookup op.id).isSome
  · rw [if_pos h2]; exact h
  · rw [if_neg h2, lookup_append_of_isSome t _ k h]; exact h

theorem foldl_insert_preserves (l : List Operation) :
    ∀ (t : List (Int × TransactionRow)) (k : Int), (t.lookup k).isSome →
    ((l.foldl insert_transaction t).lookup k).isSome := by
  induction l with
  | nil => intro t k h; exact h
  | cons op l ih =>
      intro t k h
      rw [List.foldl_cons]
      exact ih _ k (insert_transaction_preserves t op k h)

theorem foldl_insert_mem (l : List Operation) :
    ∀ (t : List (Int × TransactionRow)) (op : Operation), op ∈ l →
    ((l.foldl insert_transaction t).lookup op.id).isSome := by
  induction l with
  | nil => intro t op h; exact absurd h (List.not_mem_nil op)
  | cons q l ih =>
      intro t op h
      rw [List.foldl_cons]
      rcases List.mem_cons.mp h with h1 | h2
      · rw [h1]
        exact foldl_insert_preserves l _ q.id (insert_transaction_lookup_self t q)
      · exact ih _ op h2

theorem foldl_insert_noop (l : List Operation) :
    ∀ t : List (Int × TransactionRow), (∀ op ∈ l, ((t.lookup op.id).isSome)) →
    l.foldl insert_transaction t = t := by
  induction l with
  | nil => intro t _; rfl
  | cons q l ih =>
      intro t hall
      rw [List.foldl_cons,
        show insert_transaction t q = t from if_pos (hall q (List.mem_cons_self q l))]
      exact ih t (fun op hop => hall op (List.mem_cons_of_mem q hop))

/-- Merging the same operations a second time changes nothing: every id is
already present after the first merge. -/
theorem write_operations_idem (s : AccountStatement) (t : List (Int × TransactionRow)) :
    write_operations_in_database s (write_operations_in_database s t)
      = write_operations_in_database s t := by
  unfold write_operations_in_database
  exact foldl_insert_noop (statement_operations s) _
    (fun op hop => foldl_insert_mem (statement_operations s) t op hop)

theorem update_checkpoints_lookup_self (s : AccountStatement) (cnt : Int)
    (cps : List (Int × CheckpointRow)) :
    ((update_checkpoints s cnt cps).lookup s.last_date).isSome := by
  unfold update_checkpoints
  by_cases h : (cps.lookup s.last_date).isSome
  · rw [if_pos h]; exact h
  · rw [if_neg h,
      lookup_append_of_none cps _ s.last_date (Option.not_isSome_iff_eq_none.mp h),
      lookup_cons_eq, if_pos rfl]
    rfl

/-- Writing a checkpoint for a date that already has one is a no-op, so a
second checkpoint write for the same anchor date is absorbed. -/
theorem update_checkpoints_absorb (s : AccountStatement) (cnt cnt2 : Int)
    (cps : List (Int × CheckpointRow)) :
    update_checkpoints s cnt2 (update_checkpoints s cnt cps)
      = update_checkpoints s cnt cps := by
  conv_lhs => rw [update_checkpoints]
  rw [if_pos (update_checkpoints_lookup_self s cnt cps)]

/-! ## Unfolding the two outcomes of a normal-mode import -/

theorem prepare_normal_error (stmt : AccountStatement) (db : DatabaseState)
    (e : HealthFailure)
    (hh : analyse_operations_check
        (whole_statement stmt (write_operations_in_database stmt db.transactions))
        db.checkpoints = Except.error e) :
    prepare_and_analyse_history stmt db false
      = (⟨write_operations_in_database stmt db.transactions, db.checkpoints⟩,
         Except.ok ()) := by
  have hr : prepare_and_analyse_history stmt db false
      = (match analyse_operations_check
            (whole_statement stmt (write_operations_in_database stmt db.transactions))
            db.checkpoints with
         | Except.error _ =>
            (⟨write_operations_in_database stmt db.transactions, db.checkpoints⟩,
             Except.ok ())
         | Except.ok _ =>
            (⟨write_operations_in_database stmt db.transactions,
              update_checkpoints
                (whole_statement stmt (write_operations_in_database stmt db.transactions))
                (get_last_date_transactions_count
                  (whole_statement stmt (write_operations_in_database stmt db.transactions))
                  (write_operations_in_database stmt db.transactions))
                db.checkpoints⟩,
             Except.ok ())) := rfl
  rw [hr, hh]

theorem prepare_normal_ok (stmt : AccountStatement) (db : DatabaseState)
    (hh : analyse_operations_check
        (whole_statement stmt (write_operations_in_database stmt db.transactions))
        db.checkpoints = Except.ok ()) :
    prepare_and_analyse_history stmt db false
      = (⟨write_operations_in_database stmt db.transactions,
          update_checkpoints
            (whole_statement stmt (write_operations_in_database stmt db.transactions))
            (get_last_date_transactions_count
              (whole_statement stmt (write_operations_in_database stmt db.transactions))
              (write_operations_in_database stmt db.transactions))
            db.checkpoints⟩,
         Except.ok ()) := by
  have hr : prepare_and_analyse_history stmt db false
      = (match analyse_operations_check
            (whole_statement stmt (write_operations_in_database stmt db.transactions))
            db.checkpoints with
         | Except.error _ =>
            (⟨write_operations_in_database stmt db.transactions, db.checkpoints⟩,
             Except.ok ())
         | Except.ok _ =>
            (⟨write_operations_in_database stmt db.transactions,
              update_checkpoints
                (whole_statement stmt (write_operations_in_database stmt db.transactions))
                (get_last_date_transactions_count
                  (whole_statement stmt (write_operations_in_database stmt db.transactions))
                  (write_operations_in_database stmt db.transactions))
                db.checkpoints⟩,
             Except.ok ())) := rfl
  rw [hr, hh]

/-! ## Claim C5 -/

theorem health_check_counts_equiv (s : AccountStatement) (cps : List (Int × CheckpointRow)) :
    ∀ series : List (Int × ℚ),
    balance_health_check s series cps
      = health_check_with_counts (fun d => s.operations_count (d - 1)) series cps := by
  intro series
  induction series with
  | nil => rfl
  | cons p rest ih =>
      rw [balance_health_check_cons,
        show health_check_with_counts (fun d => s.operations_count (d - 1)) (p :: rest) cps
          = if date_check_ok s cps p
            then health_check_with_counts (fun d => s.operations_count (d - 1)) rest cps
            else Except.error ⟨p.1, p.2,
              (check_balance_in_checkpoints cps p.1 p.2 (s.operations_count (p.1 - 1))).2⟩
          from rfl, ih]

/-- C5: for every date of the reconstructed series the transaction count that
reconciliation compares with the stored checkpoint is the operation count of
the calendar day immediately preceding that date, not the date's own count:
the health check coincides with its generic form instantiated at
`fun d => operations_count (d - 1)`, and with one operation on day 10 and
none on day 9 the date-10 comparison succeeds against a stored count of 0
and fails against a stored count of 1. -/
theorem reconciliation_count_is_previous_day :
    (∀ (s : AccountStatement) (series : List (Int × ℚ))
        (cps : List (Int × CheckpointRow)),
      balance_health_check s series cps
        = health_check_with_counts (fun d => s.operations_count (d - 1)) series cps)
    ∧ single_op_statement.operations_count 10 = 1
    ∧ single_op_statement.operations_count 9 = 0
    ∧ balance_health_check single_op_statement [(10, 5)] [(10, ⟨5, some 0⟩)]
        = Except.ok ()
    ∧ balance_health_check single_op_statement [(10, 5)] [(10, ⟨5, some 1⟩)]
        = Except.error ⟨10, 5, some 5⟩ :=
  ⟨fun s series cps => health_check_counts_equiv s cps series,
   by decide, by decide, by rfl, by rfl⟩

/-! ## Claim C6 -/

/-- C6: importing the same statement twice yields exactly the store of a
single import — the second merge of every already-stored transaction id is a
no-op and the second checkpoint write for the anchor date is a no-op, so no
stored row is added, removed or modified. -/
theorem import_twice_eq_import_once (stmt : AccountStatement) (db : DatabaseState) :
    (prepare_and_analyse_history stmt
        (prepare_and_analyse_history stmt db false).1 false).1
      = (prepare_and_analyse_history stmt db false).1
    ∧ (∀ t, write_operations_in_database stmt (write_operations_in_database stmt t)
        = write_operations_in_database stmt t)
    ∧ (∀ cnt cnt2 cps, update_checkpoints stmt cnt2 (update_checkpoints stmt cnt cps)
        = update_checkpoints stmt cnt cps) := by
  refine ⟨?_, write_operations_idem stmt, update_checkpoints_absorb stmt⟩
  cases hh : analyse_operations_check
      (whole_statement stmt (write_operations_in_database stmt db.transactions))
      db.checkpoints with
  | error e =>
      have h1 : (prepare_and_analyse_history stmt db false).1
          = (⟨write_operations_in_database stmt db.transactions, db.checkpoints⟩
             : DatabaseState) :=
        congrArg Prod.fst (prepare_normal_error stmt db e hh)
      rw [h1]
      have hh2 : analyse_operations_check
          (whole_statement stmt (write_operations_in_database stmt
            (write_operations_in_database stmt db.transactions)))
          db.checkpoints = Except.error e := by
        rw [write_operations_idem stmt db.transactions]; exact hh
      have h2 : (prepare_and_analyse_history stmt
          (⟨write_operations_in_database stmt db.transactions, db.checkpoints⟩
           : DatabaseState) false).1
          = (⟨write_operations_in_database stmt
                (write_operations_in_database stmt db.transactions),
              db.checkpoints⟩ : DatabaseState) :=
        congrArg Prod.fst (prepare_normal_error stmt
          ⟨write_operations_in_database stmt db.transactions, db.checkpoints⟩ e hh2)
      rw [h2, write_operations_idem stmt db.transactions]
  | ok u =>
      cases u
      have h1 : (prepare_and_analyse_history stmt db false).1
          = (⟨write_operations_in_database stmt db.transactions,
              update_checkpoints
                (whole_statement stmt (write_operations_in_database stmt db.transactions))
                (get_last_date_transactions_count
                  (whole_statement stmt (write_operations_in_database stmt db.transactions))
                  (write_operations_in_database stmt db.transactions))
                db.checkpoints⟩ : DatabaseState) :=
        congrArg Prod.fst (prepare_normal_ok stmt db hh)
      rw [h1]
      cases hh2 : analyse_operations_check
          (whole_statement stmt (write_operations_in_database stmt
            (write_operations_in_database stmt db.transactions)))
          (update_checkpoints
            (whole_statement stmt (write_operations_in_database stmt db.transactions))
            (get_last_date_transactions_count
              (whole_statement stmt (write_operations_in_database stmt db.transactions))
              (write_operations_in_database stmt db.transactions))
            db.checkpoints) with
      | error e2 =>
          have h2 := congrArg Prod.fst (prepare_normal_error stmt
            ⟨write_operations_in_database stmt db.transactions,
             update_checkpoints
               (whole_statement stmt (write_operations_in_database stmt db.transactions))
               (get_last_date_transactions_count
                 (whole_statement stmt (write_operations_in_database stmt db.transactions))
                 (write_operations_in_database stmt db.transactions))
               db.checkpoints⟩ e2 hh2)
          rw [h2]
          rw [show (⟨write_operations_in_database stmt
              (write_operations_in_database stmt db.transactions), _⟩ : DatabaseState)
              = _ from rfl]
          rw [write_operations_idem stmt db.transactions]
      | ok u2 =>
          cases u2
          have h2 := congrArg Prod.fst (prepare_normal_ok stmt
            ⟨write_operations_in_database stmt db.transactions,
             update_checkpoints
               (whole_statement stmt (write_operations_in_database stmt db.transactions))
               (get_last_date_transactions_count
                 (whole_statement stmt (write_operations_in_database stmt db.transactions))
                 (write_operations_in_database stmt db.transactions))
               db.checkpoints⟩ hh2)
          rw [h2]
          rw [write_operations_idem stmt db.transactions,
            update_checkpoints_absorb]

/-! ## Claim C9 -/

/-- C9 counterexample: with anchor balance 100 and a single refund of -10 on
the anchor day, the series is `[(10, 110)]`, yet `min_balance` stays at the
anchor balance 100, which occurs nowhere in the series, and the entry at
`min_balance_date` does not attain it — so `min_balance` is NOT the minimum
balance value of the output series. -/
theorem min_balance_counterexample :
    ((compute_balance_evolution refund_statement).balance_over_time.map Prod.snd) = [110]
    ∧ (compute_balance_evolution refund_statement).min_balance = 100
    ∧ (compute_balance_evolution refund_statement).min_balance
        ∉ ((compute_balance_evolution refund_statement).balance_over_time.map Prod.snd)
    ∧ (compute_balance_evolution refund_statement).min_balance_date = 10
    ∧ (compute_balance_evolution refund_statement).balance_over_time.lookup 10
        ≠ some ((compute_balance_evolution refund_statement).min_balance) := by
  refine ⟨by rfl, by rfl, by decide, by rfl, by decide⟩

/-- C9 (amended): `min_balance` / `max_balance` are the extrema of the anchor
balance together with all series values (the anchor balance is the initial
candidate even though it is not itself recorded); when some series value lies
strictly below (above) the anchor balance, `min_balance_date`
(`max_balance_date`) is the date of the first series entry attaining the
extremum along the backward walk; otherwise the extremum is the anchor
balance with the anchor date, which the series need not attain. -/
theorem extrema_tracking_spec (s : AccountStatement) :
    ((compute_balance_evolution s).min_balance
        = ((compute_balance_evolution s).balance_over_time.map Prod.snd).foldl
            min s.last_balance
      ∧ ((compute_balance_evolution s).min_balance < s.last_balance →
          ∃ s₁ s₂, (compute_balance_evolution s).balance_over_time
              = s₁ ++ ((compute_balance_evolution s).min_balance_date,
                       (compute_balance_evolution s).min_balance) :: s₂
            ∧ ∀ p ∈ s₁, (compute_balance_evolution s).min_balance < p.2)
      ∧ (¬ (compute_balance_evolution s).min_balance < s.last_balance →
          (compute_balance_evolution s).min_balance = s.last_balance
          ∧ (compute_balance_evolution s).min_balance_date = s.last_date))
    ∧ ((compute_balance_evolution s).max_balance
        = ((compute_balance_evolution s).balance_over_time.map Prod.snd).foldl
            max s.last_balance
      ∧ (s.last_balance < (compute_balance_evolution s).max_balance →
          ∃ s₁ s₂, (compute_balance_evolution s).balance_over_time
              = s₁ ++ ((compute_balance_evolution s).max_balance_date,
                       (compute_balance_evolution s).max_balance) :: s₂
            ∧ ∀ p ∈ s₁, p.2 < (compute_balance_evolution s).max_balance)
      ∧ (¬ s.last_balance < (compute_balance_evolution s).max_balance →
          (compute_balance_evolution s).max_balance = s.last_balance
          ∧ (compute_balance_evolution s).max_balance_date = s.last_date)) := by
  have hf : (compute_balance_evolution s).min_balance
      = (min_track (s.last_balance, s.last_date)
          (compute_balance_evolution s).balance_over_time).1 :=
    congrArg Prod.fst (compute_balance_evolution_min s)
  have hs : (compute_balance_evolution s).min_balance_date
      = (min_track (s.last_balance, s.last_date)
          (compute_balance_evolution s).balance_over_time).2 :=
    congrArg Prod.snd (compute_balance_evolution_min s)
  have hf2 : (compute_balance_evolution s).max_balance
      = (max_track (s.last_balance, s.last_date)
          (compute_balance_evolution s).balance_over_time).1 :=
    congrArg Prod.fst (compute_balance_evolution_max s)
  have hs2 : (compute_balance_evolution s).max_balance_date
      = (max_track (s.last_balance, s.last_date)
          (compute_balance_evolution s).balance_over_time).2 :=
    congrArg Prod.snd (compute_balance_evolution_max s)
  obtain ⟨ha, hb, hc⟩ := min_track_spec
    (compute_balance_evolution s).balance_over_time s.last_balance s.last_date
  obtain ⟨ha2, hb2, hc2⟩ := max_track_spec
    (compute_balance_evolution s).balance_over_time s.last_balance s.last_date
  rw [hf, hs, hf2, hs2]
  exact ⟨⟨ha, hb, fun h => ⟨congrArg Prod.fst (hc h), congrArg Prod.snd (hc h)⟩⟩,
         ⟨ha2, hb2, fun h => ⟨congrArg Prod.fst (hc2 h), congrArg Prod.snd (hc2 h)⟩⟩⟩

/-- Witness for the amended C9: with a +10 transaction below the anchor the
minimum 90 is below the anchor balance 100 and the series splits at its first
occurrence. -/
theorem extrema_tracking_witness :
    (compute_balance_evolution plus_op_statement).min_balance
        < plus_op_statement.last_balance
    ∧ (∃ s₁ s₂, (compute_balance_evolution plus_op_statement).balance_over_time
          = s₁ ++ ((compute_balance_evolution plus_op_statement).min_balance_date,
                   (compute_balance_evolution plus_op_statement).min_balance) :: s₂
        ∧ ∀ p ∈ s₁, (compute_balance_evolution plus_op_statement).min_balance < p.2) :=
  ⟨by decide, (extrema_tracking_spec plus_op_statement).1.2.1 (by decide)⟩

/-! ## Claim C1 -/

/-- C1 counterexample: at the end-to-end scenario (anchor 1000 on day 31,
-50 on day 30, +20 on day 15) the recorded balance for day 30 is 1050, not
`anchor_balance` minus the transactions strictly after day 30 (which is
1000), and day 20 records 1050, not the 1030 the claim asserts for days
15..29: the code also subtracts the transactions of day D itself. -/
theorem recorded_balance_counterexample :
    (compute_balance_evolution scenario_statement).balance_over_time.lookup 30
        = some 1050
    ∧ scenario_statement.last_balance
        - amounts_between scenario_statement.operations 31 scenario_statement.last_date
        = 1000
    ∧ (compute_balance_evolution scenario_statement).balance_over_time.lookup 30
        ≠ some (scenario_statement.last_balance
            - amounts_between scenario_statement.operations 31 scenario_statement.last_date)
    ∧ (compute_balance_evolution scenario_statement).balance_over_time.lookup 20
        = some 1050
    ∧ (compute_balance_evolution scenario_statement).balance_over_time.lookup 20
        ≠ some 1030 := by
  refine ⟨by rfl, by decide, by decide, by rfl, by decide⟩

/-- C1 (amended): for every recorded date D the series value is the anchor
balance minus the sum of the amounts of all transactions dated between D and
the anchor date INCLUSIVE (so the anchor-date entry itself subtracts the
anchor day's own transactions); in the scenario this gives 31 -> 1000,
30 -> 1050, 16..29 -> 1050 and 15 -> 1030. -/
theorem recorded_balance_formula (s : AccountStatement) (d : Int)
    (hlo : (get_date_boundaries s).1.getD (s.last_date + 1) ≤ d)
    (hhi : d ≤ s.last_date) :
    (compute_balance_evolution s).balance_over_time.lookup d
      = some (s.last_balance - amounts_between s.operations d s.last_date) := by
  rw [compute_balance_evolution_series, balance_walk_lookup]
  rw [if_pos (And.intro hhi (by omega))]

/-- Witness for the amended C1 at the scenario: day 30 records
1000 - (-50) = 1050 and day 15 records 1030. -/
theorem recorded_balance_witness :
    ((get_date_boundaries scenario_statement).1.getD (scenario_statement.last_date + 1)
        ≤ 30
      ∧ (30 : Int) ≤ scenario_statement.last_date)
    ∧ (compute_balance_evolution scenario_statement).balance_over_time.lookup 30
        = some 1050
    ∧ (compute_balance_evolution scenario_statement).balance_over_time.lookup 15
        = some 1030 :=
  ⟨⟨by decide, by decide⟩,
   by rw [recorded_balance_formula scenario_statement 30 (by decide) (by decide)]; decide,
   by rw [recorded_balance_formula scenario_statement 15 (by decide) (by decide)]; decide⟩

/-! ## Claim C10 -/

/-- C10: a stored checkpoint whose transaction count is NULL neutralizes the
count comparison: the date is accepted exactly when the stored balance is
within 1e-5 of the reconstructed balance, regardless of the transaction count
now reconstructed for the preceding day. -/
theorem null_count_checkpoint_balance_only (cps : List (Int × CheckpointRow))
    (d : Int) (b cb : ℚ) (cnt : Nat)
    (hcp : cps.lookup d = some ⟨cb, none⟩) :
    check_balance_in_checkpoints cps d b cnt
      = (decide (|cb - b| ≤ 1 / 100000), some cb)
    ∧ ∀ s : AccountStatement,
        date_check_ok s cps (d, b) = decide (|cb - b| ≤ 1 / 100000) := by
  have h1 : ∀ k : Nat, check_balance_in_checkpoints cps d b k
      = (decide (|cb - b| ≤ 1 / 100000), some cb) := by
    intro k
    unfold check_balance_in_checkpoints
    rw [hcp]
    simp
  exact ⟨h1 cnt, fun s => by
    unfold date_check_ok
    rw [h1 (s.operations_count (d - 1))]⟩

/-- Witness for C10: the NULL-count checkpoint for day 5 is accepted with a
matching balance whatever the count, and rejected when the balance is off by
1. -/
theorem null_count_checkpoint_witness :
    null_count_checkpoints.lookup 5 = some ⟨50, none⟩
    ∧ check_balance_in_checkpoints null_count_checkpoints 5 50 7 = (true, some 50)
    ∧ check_balance_in_checkpoints null_count_checkpoints 5 49 0 = (false, some 50) :=
  ⟨by decide,
   by rw [(null_count_checkpoint_balance_only null_count_checkpoints 5 50 50 7
       (by decide)).1]; decide,
   by rw [(null_count_checkpoint_balance_only null_count_checkpoints 5 49 50 0
       (by decide)).1]; decide⟩

/-! ## Claim C3 -/

/-- C3: a series date whose stored checkpoint counts strictly fewer
transactions than are now recorded for the preceding day is accepted by
reconciliation whatever the balance difference: its per-date verdict is true
and no health-check error ever names that date. -/
theorem backfill_tolerance (s : AccountStatement) (series : List (Int × ℚ))
    (cps : List (Int × CheckpointRow)) (d : Int) (b cb : ℚ) (c : Int)
    (hmem : (d, b) ∈ series)
    (hnodup : (series.map Prod.fst).Nodup)
    (hcp : cps.lookup d = some ⟨cb, some c⟩)
    (hlt : c < (s.operations_count (d - 1) : Int)) :
    check_balance_in_checkpoints cps d b (s.operations_count (d - 1)) = (true, some cb)
    ∧ ∀ e, balance_health_check s series cps = Except.error e → e.date ≠ d := by
  have hcheck : check_balance_in_checkpoints cps d b (s.operations_count (d - 1))
      = (true, some cb) := by
    unfold check_balance_in_checkpoints
    rw [hcp]
    simp [decide_eq_true hlt]
  refine ⟨hcheck, ?_⟩
  intro e herr hed
  obtain ⟨bal, hmem2, hf, -⟩ := balance_health_check_error_mem s cps series e herr
  rw [hed] at hmem2 hf
  rw [nodup_fst_value_eq series d bal b hnodup hmem2 hmem] at hf
  unfold date_check_ok at hf
  rw [hcheck] at hf
  cases hf

/-- Witness for C3: a checkpoint certified with transaction count 2 and
balance 100 is accepted once 3 transactions are known for the preceding day
and the reconstructed balance is 90; the whole health check succeeds. -/
theorem backfill_tolerance_witness :
    (((10 : Int), (90 : ℚ)) ∈ [((10 : Int), (90 : ℚ))]
      ∧ ([((10 : Int), (90 : ℚ))].map Prod.fst).Nodup
      ∧ backfill_checkpoints.lookup 10 = some ⟨100, some 2⟩
      ∧ (2 : Int) < (backfill_statement.operations_count (10 - 1) : Int))
    ∧ check_balance_in_checkpoints backfill_checkpoints 10 90
        (backfill_statement.operations_count (10 - 1)) = (true, some 100)
    ∧ (∀ e, balance_health_check backfill_statement [(10, 90)] backfill_checkpoints
        = Except.error e → e.date ≠ 10)
    ∧ balance_health_check backfill_statement [(10, 90)] backfill_checkpoints
        = Except.ok () :=
  ⟨⟨by decide, by decide, by decide, by decide⟩,
   (backfill_tolerance backfill_statement [(10, 90)] backfill_checkpoints 10 90 100 2
     (by decide) (by decide) (by decide) (by decide)).1,
   (backfill_tolerance backfill_statement [(10, 90)] backfill_checkpoints 10 90 100 2
     (by decide) (by decide) (by decide) (by decide)).2,
   by rfl⟩

/-! ## Claim C8 -/

/-- C8 (code bug): a dry-run import performs no writes — the store is
returned unchanged for every input — but reporting a not-yet-stored
operation crashes: src line 374 calls `op.debug()` although the signature of
`Operation.debug` (src line 38) requires the `csv_output_mode` argument, so
the first new operation raises `TypeError` instead of being reported; only a
statement whose operations are all already stored completes. -/
theorem dry_run_no_writes_but_crashes :
    (∀ (s : AccountStatement) (db : DatabaseState),
      (prepare_and_analyse_history s db true).1 = db)
    ∧ (prepare_and_analyse_history dry_run_statement ⟨[], []⟩ true).2
        = Except.error (PythonError.typeError
            "Operation.debug missing 1 required positional argument: csv_output_mode")
    ∧ (prepare_and_analyse_history dry_run_statement
        ⟨[(1, ⟨10, "new op", 5⟩)], []⟩ true).2 = Except.ok () :=
  ⟨fun s db => rfl, by rfl, by rfl⟩

/-! ## Claim C2: the post-merge statement has date-descending keys -/

theorem mem_insert_row_iff (r x : Int × TransactionRow) :
    ∀ l, x ∈ insert_row_by_date_desc r l ↔ x = r ∨ x ∈ l := by
  intro l
  induction l with
  | nil => simp [insert_row_by_date_desc]
  | cons y ys ih =>
      unfold insert_row_by_date_desc
      by_cases h : r.2.date ≤ y.2.date
      · rw [if_pos h]
        simp only [List.mem_cons, ih]
        tauto
      · rw [if_neg h]
        simp only [List.mem_cons]

theorem insert_row_pairwise (r : Int × TransactionRow) :
    ∀ l, l.Pairwise (fun a b => b.2.date ≤ a.2.date) →
    (insert_row_by_date_desc r l).Pairwise (fun a b => b.2.date ≤ a.2.date) := by
  intro l
  induction l with
  | nil => intro _; exact List.pairwise_singleton _ r
  | cons y ys ih =>
      intro hp
      have hp1 := (List.pairwise_cons.mp hp).1
      have hp2 := (List.pairwise_cons.mp hp).2
      unfold insert_row_by_date_desc
      by_cases h : r.2.date ≤ y.2.date
      · rw [if_pos h, List.pairwise_cons]
        constructor
        · intro z hz
          rcases (mem_insert_row_iff r z ys).mp hz with h1 | h2
          · rw [h1]; exact h
          · exact hp1 z h2
        · exact ih hp2
      · rw [if_neg h, List.pairwise_cons]
        constructor
        · intro z hz
          rcases List.mem_cons.mp hz with h1 | h2
          · rw [h1]; exact le_of_lt (lt_of_not_le h)
          · exact le_trans (hp1 z h2) (le_of_lt (lt_of_not_le h))
        · exact hp

theorem order_by_date_desc_pairwise (l : List (Int × TransactionRow)) :
    (order_by_date_desc l).Pairwise (fun a b => b.2.date ≤ a.2.date) := by
  unfold order_by_date_desc
  induction l with
  | nil => exact List.Pairwise.nil
  | cons r rs ih =>
      rw [List.foldr_cons]
      exact insert_row_pairwise r _ ih

theorem add_operation_keys (op : Operation) :
    ∀ ops : List (Int × List Operation),
    (add_operation ops op).map Prod.fst
      = if op.date ∈ ops.map Prod.fst then ops.map Prod.fst
        else ops.map Prod.fst ++ [op.date] := by
  intro ops
  induction ops with
  | nil => simp [add_operation]
  | cons p rest ih =>
      rw [show add_operation (p :: rest) op
          = if p.1 = op.date then (p.1, p.2 ++ [op]) :: rest
            else p :: add_operation rest op from by cases p; rfl]
      by_cases h : p.1 = op.date
      · rw [if_pos h]
        have hc : op.date ∈ (p :: rest).map Prod.fst := by
          rw [List.map_cons, ← h]
          exact List.mem_cons_self _ _
        rw [if_pos hc, List.map_cons, List.map_cons]
      · rw [if_neg h, List.map_cons, List.map_cons, ih]
        by_cases h2 : op.date ∈ rest.map Prod.fst
        · rw [if_pos h2, if_pos (List.mem_cons_of_mem _ h2)]
        · rw [if_neg h2, if_neg ?hnm, List.cons_append]
          case hnm =>
            intro hmem
            rcases List.mem_cons.mp hmem with h3 | h3
            · exact h h3.symm
            · exact h2 h3

theorem build_statement_keys_desc :
    ∀ (rows : List (Int × TransactionRow)) (acc : AccountStatement),
    rows.Pairwise (fun a b => b.2.date ≤ a.2.date) →
    (acc.operations.map Prod.fst).Pairwise (fun a b => b < a) →
    (∀ r ∈ rows, ∀ k ∈ acc.operations.map Prod.fst, r.2.date ≤ k) →
    ((rows.foldl (fun (a : AccountStatement) (r : Int × TransactionRow) =>
        a.add ⟨r.1, r.2.date, r.2.label, r.2.amount⟩) acc).operations.map
      Prod.fst).Pairwise (fun a b => b < a) := by
  intro rows
  induction rows with
  | nil => intro acc _ hacc _; exact hacc
  | cons r rs ih =>
      intro acc hrows hacc hbound
      rw [List.foldl_cons]
      have hrows1 := (List.pairwise_cons.mp hrows).1
      have hrows2 := (List.pairwise_cons.mp hrows).2
      have hkeys : ((acc.add ⟨r.1, r.2.date, r.2.label, r.2.amount⟩).operations.map Prod.fst)
          = if r.2.date ∈ acc.operations.map Prod.fst then acc.operations.map Prod.fst
            else acc.operations.map Prod.fst ++ [r.2.date] :=
        add_operation_keys _ acc.operations
      by_cases hin : r.2.date ∈ acc.operations.map Prod.fst
      · apply ih _ hrows2
        · rw [hkeys, if_pos hin]; exact hacc
        · intro r2 hr2 k hk
          rw [hkeys, if_pos hin] at hk
          exact hbound r2 (List.mem_cons_of_mem r hr2) k hk
      · apply ih _ hrows2
        · rw [hkeys, if_neg hin, List.pairwise_append]
          refine ⟨hacc, List.pairwise_singleton _ _, ?_⟩
          intro a ha b hb
          rw [List.mem_singleton.mp hb]
          have hle := hbound r (List.mem_cons_self r rs) a ha
          exact lt_of_le_of_ne hle (fun heq => hin (by rw [heq]; exact ha))
        · intro r2 hr2 k hk
          rw [hkeys, if_neg hin] at hk
          rcases List.mem_append.mp hk with h1 | h2
          · exact hbound r2 (List.mem_cons_of_mem r hr2) k h1
          · rw [List.mem_singleton.mp h2]; exact hrows1 r2 hr2

/-- The statement rebuilt from the store always has strictly
date-descending operation keys (the read is ordered by date descending and
`add` groups equal dates under one key). -/
theorem read_transactions_keys_desc (aid : Int) (t : List (Int × TransactionRow)) :
    ((read_transactions_from_database aid t).operations.map Prod.fst).Pairwise
      (fun a b => b < a) := by
  unfold read_transactions_from_database
  apply build_statement_keys_desc _ _ (order_by_date_desc_pairwise t)
  · exact List.Pairwise.nil
  · intro r _ k hk; exact absurd hk (List.not_mem_nil k)

/-- In a strictly descending list the last element is the minimum. -/
theorem desc_getLast_min :
    ∀ l : List Int, l.Pairwise (fun a b => b < a) →
    ∀ m, l.getLast? = some m → ∀ k ∈ l, m ≤ k := by
  intro l
  induction l with
  | nil => intro _ m hm; cases hm
  | cons a rest ih =>
      intro hp m hm k hk
      cases rest with
      | nil =>
          rw [List.getLast?_singleton] at hm
          have hma : m = a := by injection hm with h; exact h.symm
          rcases List.mem_cons.mp hk with h1 | h1
          · rw [hma, h1]
          · exact absurd h1 (List.not_mem_nil k)
      | cons b bs =>
          have hm2 : (b :: bs).getLast? = some m := by
            rw [List.getLast?_cons_cons] at hm; exact hm
          have hp1 := (List.pairwise_cons.mp hp).1
          have hp2 := (List.pairwise_cons.mp hp).2
          rcases List.mem_cons.mp hk with h1 | h2
          · rw [h1]
            exact le_of_lt (hp1 m (List.mem_of_getLast?_eq_some hm2))
          · exact ih hp2 m hm2 k h2

/-- C2: for every post-merge statement (whole ledger re-read from the store)
with at least one operation whose anchor date is on or after its earliest
operation date `m`, the reconstructed series records every calendar day from
`m` up to the anchor date inclusive exactly once, and no other day:
`m` bounds all operation dates from below, the recorded days are distinct,
and a day is recorded iff it lies in `[m, anchor]`. -/
theorem dense_series (stmt : AccountStatement) (t : List (Int × TransactionRow)) (m : Int)
    (hne : (whole_statement stmt t).operations ≠ [])
    (hm : (get_date_boundaries (whole_statement stmt t)).1 = some m)
    (hanchor : m ≤ stmt.last_date) :
    (∀ k ∈ (whole_statement stmt t).operations.map Prod.fst, m ≤ k)
    ∧ ((compute_balance_evolution (whole_statement stmt t)).balance_over_time.map
        Prod.fst).Nodup
    ∧ (∀ d : Int,
        d ∈ (compute_balance_evolution (whole_statement stmt t)).balance_over_time.map
            Prod.fst
          ↔ (m ≤ d ∧ d ≤ stmt.last_date)) := by
  have hdesc : ((whole_statement stmt t).operations.map Prod.fst).Pairwise
      (fun a b => b < a) := read_transactions_keys_desc stmt.account_id t
  have hmin : ∀ k ∈ (whole_statement stmt t).operations.map Prod.fst, m ≤ k :=
    desc_getLast_min _ hdesc m hm
  have hseries : (compute_balance_evolution (whole_statement stmt t)).balance_over_time
      = balance_walk (whole_statement stmt t).operations stmt.last_balance stmt.last_date
          (stmt.last_date + 1 - m).toNat := by
    rw [compute_balance_evolution_series, hm]
    exact rfl
  refine ⟨hmin, ?_, ?_⟩
  · rw [hseries]; exact balance_walk_nodup _ _ _ _
  · intro d
    rw [hseries, balance_walk_mem]
    omega

/-- Witness for C2: a store with transactions on days 30 and 15 and anchor
day 31 yields a series recording exactly the days 15..31. -/
theorem dense_series_witness :
    ((whole_statement dense_witness_statement dense_witness_table).operations ≠ []
      ∧ (get_date_boundaries
          (whole_statement dense_witness_statement dense_witness_table)).1 = some 15
      ∧ (15 : Int) ≤ dense_witness_statement.last_date)
    ∧ ((∀ k ∈ (whole_statement dense_witness_statement
          dense_witness_table).operations.map Prod.fst, 15 ≤ k)
      ∧ ((compute_balance_evolution (whole_statement dense_witness_statement
          dense_witness_table)).balance_over_time.map Prod.fst).Nodup
      ∧ (∀ d : Int,
          d ∈ (compute_balance_evolution (whole_statement dense_witness_statement
              dense_witness_table)).balance_over_time.map Prod.fst
            ↔ (15 ≤ d ∧ d ≤ dense_witness_statement.last_date))) :=
  ⟨⟨by decide, by decide, by decide⟩,
   dense_series dense_witness_statement dense_witness_table 15
     (by decide) (by decide) (by decide)⟩

/-! ## Claim C4 -/

/-- C4: when some reconstructed date has a stored checkpoint whose
transaction count is at least the reconstructed count and either the counts
differ or the balances differ by more than 1e-5, reconciliation raises for
that account, stops at the first incoherent date (entries after it do not
influence the result), and the import leaves the checkpoints table
unchanged. -/
theorem irreconcilable_checkpoint_detection (stmt : AccountStatement) (db : DatabaseState)
    (d : Int) (b cb : ℚ) (c : Int)
    (hmem : (d, b) ∈ reconstructed_series stmt db)
    (hcp : db.checkpoints.lookup d = some ⟨cb, some c⟩)
    (hge : ((merged_statement stmt db).operations_count (d - 1) : Int) ≤ c)
    (hbad : c ≠ ((merged_statement stmt db).operations_count (d - 1) : Int)
        ∨ ¬(|cb - b| ≤ 1 / 100000)) :
    (∃ e, balance_health_check (merged_statement stmt db) (reconstructed_series stmt db)
        db.checkpoints = Except.error e)
    ∧ (prepare_and_analyse_history stmt db false).1.checkpoints = db.checkpoints
    ∧ (∃ s₁ x s₂, reconstructed_series stmt db = s₁ ++ x :: s₂
        ∧ (∀ y ∈ s₁, date_check_ok (merged_statement stmt db) db.checkpoints y = true)
        ∧ date_check_ok (merged_statement stmt db) db.checkpoints x = false
        ∧ balance_health_check (merged_statement stmt db) (s₁ ++ [x]) db.checkpoints
            = balance_health_check (merged_statement stmt db)
                (reconstructed_series stmt db) db.checkpoints) := by
  have hnlt : ¬ (c < ((merged_statement stmt db).operations_count (d - 1) : Int)) :=
    not_lt.mpr hge
  have hfail : date_check_ok (merged_statement stmt db) db.checkpoints (d, b) = false := by
    show (check_balance_in_checkpoints db.checkpoints d b
        ((merged_statement stmt db).operations_count (d - 1))).1 = false
    unfold check_balance_in_checkpoints
    rw [hcp]
    rcases hbad with h1 | h2
    · simp [decide_eq_false h1, decide_eq_false hnlt]
    · simp [decide_eq_false h2, decide_eq_false hnlt]
      intro _
      simpa using lt_of_not_le h2
  obtain ⟨s₁, x, s₂, hsp, hpre, hx, herr, htr⟩ :=
    balance_health_check_error_split (merged_statement stmt db) db.checkpoints
      (reconstructed_series stmt db) ⟨(d, b), hmem, hfail⟩
  have hne : (merged_statement stmt db).operations ≠ [] := by
    intro h0
    have h0s : reconstructed_series stmt db = [] := by
      unfold reconstructed_series
      rw [compute_balance_evolution_series]
      have hb : (get_date_boundaries (merged_statement stmt db)).1 = none := by
        unfold get_date_boundaries
        rw [h0]
        rfl
      rw [hb,
        show ((merged_statement stmt db).last_date + 1
          - (Option.getD none ((merged_statement stmt db).last_date + 1))).toNat = 0
        from by rw [Option.getD_none]; omega]
      exact rfl
    rw [h0s] at hmem
    exact absurd hmem (List.not_mem_nil _)
  have hana : analyse_operations_check (merged_statement stmt db) db.checkpoints
      = Except.error ⟨x.1, x.2,
          (check_balance_in_checkpoints db.checkpoints x.1 x.2
            ((merged_statement stmt db).operations_count (x.1 - 1))).2⟩ := by
    unfold analyse_operations_check
    rw [if_neg (by simp [hne])]
    exact herr
  refine ⟨⟨_, herr⟩, ?_, ⟨s₁, x, s₂, hsp, hpre, hx, htr⟩⟩
  have h1 := prepare_normal_error stmt db _ hana
  have h2 : (prepare_and_analyse_history stmt db false).1.checkpoints = db.checkpoints :=
    congrArg (fun st : DatabaseState × Except PythonError Unit => st.1.checkpoints) h1
  exact h2

/-- Witness for C4: against a stored checkpoint (balance 100, count 2) for
day 10, reconstruction from the same 2 transactions yields balance 95, the
health check raises and the checkpoints table is unchanged. -/
theorem irreconcilable_witness :
    ((10, (95 : ℚ)) ∈ reconstructed_series conflict_statement conflict_db
      ∧ conflict_db.checkpoints.lookup 10 = some ⟨100, some 2⟩
      ∧ ((merged_statement conflict_statement conflict_db).operations_count (10 - 1)
          : Int) ≤ 2
      ∧ ¬(|(100 : ℚ) - 95| ≤ 1 / 100000))
    ∧ ((∃ e, balance_health_check (merged_statement conflict_statement conflict_db)
          (reconstructed_series conflict_statement conflict_db)
          conflict_db.checkpoints = Except.error e)
      ∧ (prepare_and_analyse_history conflict_statement conflict_db
            false).1.checkpoints = conflict_db.checkpoints
      ∧ (∃ s₁ x s₂, reconstructed_series conflict_statement conflict_db = s₁ ++ x :: s₂
          ∧ (∀ y ∈ s₁, date_check_ok (merged_statement conflict_statement conflict_db)
              conflict_db.checkpoints y = true)
          ∧ date_check_ok (merged_statement conflict_statement conflict_db)
              conflict_db.checkpoints x = false
          ∧ balance_health_check (merged_statement conflict_statement conflict_db)
              (s₁ ++ [x]) conflict_db.checkpoints
              = balance_health_check (merged_statement conflict_statement conflict_db)
                  (reconstructed_series conflict_statement conflict_db)
                  conflict_db.checkpoints)) :=
  ⟨⟨by decide, by decide, by decide, by decide⟩,
   irreconcilable_checkpoint_detection conflict_statement conflict_db 10 95 100 2
     (by decide) (by decide) (by decide) (Or.inr (by decide))⟩

/-! ## Claim C7: the month-comparison grid -/

theorem getD_set_self {α : Type} (l : List α) :
    ∀ (n : Nat) (a d : α), n < l.length → (l.set n a).getD n d = a := by
  induction l with
  | nil => intro n a d h; exact absurd h (by simp)
  | cons y ys ih =>
      intro n a d h
      cases n with
      | zero => rfl
      | succ n => exact ih n a d (by simpa using h)

theorem getD_set_ne {α : Type} (l : List α) :
    ∀ (n m : Nat) (a d : α), n ≠ m → (l.set n a).getD m d = l.getD m d := by
  induction l with
  | nil => intro n m a d _; rfl
  | cons y ys ih =>
      intro n m a d h
      cases n with
      | zero =>
          cases m with
          | zero => exact absurd rfl h
          | succ m => rfl
      | succ n =>
          cases m with
          | zero => rfl
          | succ m => exact ih n m a d (fun he => h (by rw [he]))

theorem getD_append_left {α : Type} (l₁ : List α) :
    ∀ (l₂ : List α) (n : Nat) (d : α), n < l₁.length →
    (l₁ ++ l₂).getD n d = l₁.getD n d := by
  induction l₁ with
  | nil => intro l₂ n d h; exact absurd h (by simp)
  | cons y ys ih =>
      intro l₂ n d h
      cases n with
      | zero => rfl
      | succ n => exact ih l₂ n d (by simpa using h)

theorem getD_append_right {α : Type} (l₁ : List α) :
    ∀ (l₂ : List α) (n : Nat) (d : α), l₁.length ≤ n →
    (l₁ ++ l₂).getD n d = l₂.getD (n - l₁.length) d := by
  induction l₁ with
  | nil => intro l₂ n d _; rfl
  | cons y ys ih =>
      intro l₂ n d h
      cases n with
      | zero => exact absurd h (by simp)
      | succ n =>
          show (ys ++ l₂).getD n d = l₂.getD (n + 1 - (ys.length + 1)) d
          rw [Nat.succ_sub_succ]
          exact ih l₂ n d (by simpa using h)

theorem getD_replicate {α : Type} (k : Nat) :
    ∀ (i : Nat) (b d : α), (List.replicate k b).getD i d = if i < k then b else d := by
  induction k with
  | zero => intro i b d; rw [if_neg (by omega)]; rfl
  | succ k ih =>
      intro i b d
      cases i with
      | zero => rw [if_pos (by omega)]; rfl
      | succ i =>
          rw [List.replicate_succ]
          show (List.replicate k b).getD i d = _
          rw [ih i b d]
          by_cases h : i < k
          · rw [if_pos h, if_pos (by omega)]
          · rw [if_neg h, if_neg (by omega)]

theorem getD_out_of_range {α : Type} (l : List α) :
    ∀ (n : Nat) (d : α), l.length ≤ n → l.getD n d = d := by
  induction l with
  | nil => intro n d _; rfl
  | cons y ys ih =>
      intro n d h
      cases n with
      | zero => exact absurd h (by simp)
      | succ n => exact ih n d (by simpa using h)

theorem getD_default_irrel {α : Type} (l : List α) :
    ∀ (n : Nat) (d1 d2 : α), n < l.length → l.getD n d1 = l.getD n d2 := by
  induction l with
  | nil => intro n d1 d2 h; exact absurd h (by simp)
  | cons y ys ih =>
      intro n d1 d2 h
      cases n with
      | zero => rfl
      | succ n => exact ih n d1 d2 (by simpa using h)

theorem mem_set_subset {α : Type} (l : List α) :
    ∀ (n : Nat) (a : α) (x : α), x ∈ l.set n a → x = a ∨ x ∈ l := by
  induction l with
  | nil => intro n a x h; exact absurd h (List.not_mem_nil x)
  | cons y ys ih =>
      intro n a x h
      cases n with
      | zero =>
          rcases List.mem_cons.mp h with h1 | h1
          · exact Or.inl h1
          · exact Or.inr (List.mem_cons_of_mem y h1)
      | succ n =>
          rcases List.mem_cons.mp h with h1 | h1
          · exact Or.inr (by rw [h1]; exact List.mem_cons_self y ys)
          · rcases ih n a x h1 with h2 | h2
            · exact Or.inl h2
            · exact Or.inr (List.mem_cons_of_mem y h2)

theorem blank_row_length : blank_row.length = 32 := rfl

theorem ensure_rows_length (g : List (List (Option ℚ))) (m : Nat) :
    (ensure_rows g m).length = max g.length (m + 1) := by
  unfold ensure_rows
  rw [List.length_append, List.length_replicate]
  omega

theorem ensure_rows_mem (g : List (List (Option ℚ))) (m : Nat)
    (h32 : ∀ row ∈ g, row.length = 32) :
    ∀ row ∈ ensure_rows g m, row.length = 32 := by
  intro row hrow
  rcases List.mem_append.mp hrow with h | h
  · exact h32 row h
  · rw [List.eq_of_mem_replicate h]; rfl

theorem place_balance_rows_len (g : List (List (Option ℚ))) (m day : Nat) (v : ℚ)
    (h32 : ∀ row ∈ g, row.length = 32) :
    ∀ row ∈ place_balance g m day v, row.length = 32 := by
  intro row hrow
  unfold place_balance at hrow
  rcases mem_set_subset _ _ _ _ hrow with h | h
  · rw [h, List.length_set]
    rcases Nat.lt_or_ge m (ensure_rows g m).length with hlt | hge
    · have hmem : (ensure_rows g m).getD m blank_row ∈ ensure_rows g m := by
        rw [List.getD_eq_getElem?_getD, List.getElem?_eq_getElem hlt]
        exact List.getElem_mem _
      exact ensure_rows_mem g m h32 _ hmem
    · rw [getD_out_of_range _ _ _ hge]; rfl
  · exact ensure_rows_mem g m h32 row h

theorem ensure_rows_getD_lt (g : List (List (Option ℚ))) (m r : Nat)
    (d : List (Option ℚ)) (h : r < g.length) :
    (ensure_rows g m).getD r d = g.getD r d := by
  unfold ensure_rows
  exact getD_append_left _ _ _ _ h

theorem ensure_rows_getD_ge (g : List (List (Option ℚ))) (m r : Nat)
    (d : List (Option ℚ)) (h : g.length ≤ r) :
    (ensure_rows g m).getD r d
      = if r - g.length < m + 1 - g.length then blank_row else d := by
  unfold ensure_rows
  rw [getD_append_right _ _ _ _ h, getD_replicate]

theorem cell_place_self (g : List (List (Option ℚ))) (m day : Nat) (v : ℚ)
    (h32 : ∀ row ∈ g, row.length = 32) (hday : day < 32) :
    cell (place_balance g m day v) m day = some v := by
  unfold place_balance cell
  have hlen : m < (ensure_rows g m).length := by
    rw [ensure_rows_length]; omega
  have hrow32 : ((ensure_rows g m).getD m blank_row).length = 32 := by
    have hmem : (ensure_rows g m).getD m blank_row ∈ ensure_rows g m := by
      rw [List.getD_eq_getElem?_getD, List.getElem?_eq_getElem hlen]
      exact List.getElem_mem _
    exact ensure_rows_mem g m h32 _ hmem
  rw [getD_set_self _ _ _ _ hlen, getD_set_self _ _ _ _ (by omega)]

theorem cell_place_other (g : List (List (Option ℚ))) (m day : Nat) (v : ℚ) (r c : Nat)
    (h32 : ∀ row ∈ g, row.length = 32) (hne : (m, day) ≠ (r, c)) :
    cell (place_balance g m day v) r c = cell g r c := by
  unfold place_balance cell
  by_cases hm : m = r
  · subst hm
    have hdc : day ≠ c := by
      intro h; exact hne (by rw [h])
    have hlen : m < (ensure_rows g m).length := by
      rw [ensure_rows_length]; omega
    rw [getD_set_self _ _ _ _ hlen, getD_set_ne _ _ _ _ _ hdc]
    by_cases hlt : m < g.length
    · rw [ensure_rows_getD_lt g m m blank_row hlt,
        getD_default_irrel g m blank_row ([] : List (Option ℚ)) hlt]
    · have hge := le_of_not_lt hlt
      rw [ensure_rows_getD_ge g m m blank_row hge, if_pos (by omega),
        getD_out_of_range g m ([] : List (Option ℚ)) hge]
      show (List.replicate 32 (none : Option ℚ)).getD c none = _
      rw [getD_replicate]
      by_cases hc : c < 32
      · rw [if_pos hc]; rfl
      · rw [if_neg hc]; rfl
  · rw [getD_set_ne _ _ _ _ _ hm]
    by_cases hr : r < g.length
    · rw [ensure_rows_getD_lt g m r ([] : List (Option ℚ)) hr]
    · have hge := le_of_not_lt hr
      rw [ensure_rows_getD_ge g m r ([] : List (Option ℚ)) hge,
        getD_out_of_range g r ([] : List (Option ℚ)) hge]
      by_cases hrb : r - g.length < m + 1 - g.length
      · rw [if_pos hrb]
        show (List.replicate 32 (none : Option ℚ)).getD c none = _
        rw [getD_replicate]
        by_cases hc : c < 32
        · rw [if_pos hc]; rfl
        · rw [if_neg hc]; rfl
      · rw [if_neg hrb]

theorem fold_rows_len (last : CalDate) :
    ∀ (l : List (CalDate × ℚ)) (g : List (List (Option ℚ))),
    (∀ row ∈ g, row.length = 32) →
    ∀ row ∈ l.foldl (fun g p => place_balance g
        (calculate_month_difference last p.1).toNat p.1.day p.2) g,
      row.length = 32 := by
  intro l
  induction l with
  | nil => intro g h32; exact h32
  | cons p rest ih =>
      intro g h32
      rw [List.foldl_cons]
      exact ih _ (place_balance_rows_len g _ _ _ h32)

theorem find_key_of_mem (last : CalDate) :
    ∀ (l : List (CalDate × ℚ)) (p : CalDate × ℚ) (k : Nat × Nat),
    p ∈ l → (l.map (grid_key last)).Nodup → grid_key last p = k →
    l.find? (fun q => decide (grid_key last q = k)) = some p := by
  intro l
  induction l with
  | nil => intro p k h _ _; exact absurd h (List.not_mem_nil p)
  | cons y ys ih =>
      intro p k hp hnd hk
      rw [List.map_cons, List.nodup_cons] at hnd
      rcases List.mem_cons.mp hp with h1 | h1
      · rw [h1] at hk
        rw [List.find?_cons_of_pos]
        · rw [h1]
        · simp [hk]
      · rw [List.find?_cons_of_neg, ih p k h1 hnd.2 hk]
        simp only [decide_eq_true_eq]
        intro heq
        apply hnd.1
        rw [show grid_key last y = grid_key last p from heq.trans hk.symm]
        exact List.mem_map_of_mem (grid_key last) h1

/-- Full characterization of the grid fold: a cell holds exactly the value of
the unique series pair whose (month-row, day-column) key targets it, and is
untouched otherwise. -/
theorem cell_fold (last : CalDate) :
    ∀ (l : List (CalDate × ℚ)) (g : List (List (Option ℚ))),
    (∀ row ∈ g, row.length = 32) →
    (∀ p ∈ l, p.1.day ≤ 31) →
    ((l.map (grid_key last)).Nodup) →
    ∀ r c, cell (l.foldl (fun g p => place_balance g
        (calculate_month_difference last p.1).toNat p.1.day p.2) g) r c
      = (match l.find? (fun q => decide (grid_key last q = (r, c))) with
         | some q => some q.2
         | none => cell g r c) := by
  intro l
  induction l with
  | nil => intro g _ _ _ r c; rfl
  | cons p rest ih =>
      intro g h32 hday hnd r c
      rw [List.map_cons, List.nodup_cons] at hnd
      rw [List.foldl_cons,
        ih _ (place_balance_rows_len g _ _ _ h32)
          (fun q hq => hday q (List.mem_cons_of_mem p hq)) hnd.2 r c]
      by_cases hk : grid_key last p = (r, c)
      · have hfind : rest.find? (fun q => decide (grid_key last q = (r, c))) = none := by
          rw [List.find?_eq_none]
          intro x hx
          simp only [decide_eq_true_eq]
          intro heq
          apply hnd.1
          rw [show grid_key last p = grid_key last x from hk.trans heq.symm]
          exact List.mem_map_of_mem (grid_key last) hx
        have hfind2 : (p :: rest).find? (fun q => decide (grid_key last q = (r, c)))
            = some p := by
          rw [List.find?_cons_of_pos]
          simp [hk]
        rw [hfind, hfind2]
        have hr : (calculate_month_difference last p.1).toNat = r :=
          congrArg Prod.fst hk
        have hc : p.1.day = c := congrArg Prod.snd hk
        rw [← hr, ← hc]
        exact cell_place_self g _ _ p.2 h32
          (Nat.lt_succ_of_le (hday p (List.mem_cons_self p rest)))
      · have hfind2 : (p :: rest).find? (fun q => decide (grid_key last q = (r, c)))
            = rest.find? (fun q => decide (grid_key last q = (r, c))) := by
          rw [List.find?_cons_of_neg]
          simp [hk]
        rw [hfind2]
        cases hfr : rest.find? (fun q => decide (grid_key last q = (r, c))) with
        | some q => rfl
        | none => exact cell_place_other g _ _ p.2 r c h32 hk

/-- C7: the month-comparison grid places each (date, balance) pair of the
series into the row indexed by the number of whole months between the anchor
month and the date's month (row 0 = anchor month) and the column equal to its
day-of-month; every row has 32 slots, slot 0 of every row stays empty, and
every cell not targeted by a series pair stays empty. -/
theorem month_grid_placement (series : List (CalDate × ℚ)) (last : CalDate)
    (hday : ∀ p ∈ series, 1 ≤ p.1.day ∧ p.1.day ≤ 31)
    (hmonth : ∀ p ∈ series, month_index p.1 ≤ month_index last)
    (hnd : (series.map (grid_key last)).Nodup) :
    (∀ p ∈ series, cell (compute_balance_compared series last)
        (calculate_month_difference last p.1).toNat p.1.day = some p.2)
    ∧ (∀ row ∈ compute_balance_compared series last, row.length = 32)
    ∧ (∀ r, cell (compute_balance_compared series last) r 0 = none)
    ∧ (∀ r c, (∀ p ∈ series, grid_key last p ≠ (r, c)) →
        cell (compute_balance_compared series last) r c = none) := by
  have hday2 : ∀ p ∈ series, p.1.day ≤ 31 := fun p hp => (hday p hp).2
  have hempty : ∀ row ∈ ([] : List (List (Option ℚ))), row.length = 32 := by
    intro row hr; exact absurd hr (List.not_mem_nil row)
  refine ⟨?_, ?_, ?_, ?_⟩
  · intro p hp
    unfold compute_balance_compared
    rw [cell_fold last series [] hempty hday2 hnd,
      find_key_of_mem last series p
        ((calculate_month_difference last p.1).toNat, p.1.day) hp hnd rfl]
  · exact fold_rows_len last series [] hempty
  · intro r
    unfold compute_balance_compared
    rw [cell_fold last series [] hempty hday2 hnd]
    have hz : series.find? (fun q => decide (grid_key last q = (r, 0))) = none := by
      rw [List.find?_eq_none]
      intro x hx
      simp only [decide_eq_true_eq]
      intro heq
      have h1 := (hday x hx).1
      have h2 : x.1.day = 0 := congrArg Prod.snd heq
      omega
    rw [hz]
    rfl
  · intro r c hnone
    unfold compute_balance_compared
    rw [cell_fold last series [] hempty hday2 hnd]
    have hz2 : series.find? (fun q => decide (grid_key last q = (r, c))) = none := by
      rw [List.find?_eq_none]
      intro x hx
      simp only [decide_eq_true_eq]
      exact hnone x hx
    rw [hz2]
    rfl

/-- Witness for C7: a balance of 50 on the 15th of the anchor month
(2024-03) lands in row 0, column 15 and a balance of 40 on the 15th of the
prior month (2024-02) lands in row 1, column 15. -/
theorem month_grid_witness :
    ((∀ p ∈ [((⟨2024, 3, 15⟩ : CalDate), (50 : ℚ)), (⟨2024, 2, 15⟩, 40)],
        1 ≤ p.1.day ∧ p.1.day ≤ 31)
      ∧ (∀ p ∈ [((⟨2024, 3, 15⟩ : CalDate), (50 : ℚ)), (⟨2024, 2, 15⟩, 40)],
          month_index p.1 ≤ month_index ⟨2024, 3, 31⟩)
      ∧ ([((⟨2024, 3, 15⟩ : CalDate), (50 : ℚ)), (⟨2024, 2, 15⟩, 40)].map
          (grid_key ⟨2024, 3, 31⟩)).Nodup)
    ∧ (calculate_month_difference ⟨2024, 3, 31⟩ ⟨2024, 3, 15⟩).toNat = 0
    ∧ (calculate_month_difference ⟨2024, 3, 31⟩ ⟨2024, 2, 15⟩).toNat = 1
    ∧ cell (compute_balance_compared
        [((⟨2024, 3, 15⟩ : CalDate), (50 : ℚ)), (⟨2024, 2, 15⟩, 40)] ⟨2024, 3, 31⟩)
        (calculate_month_difference ⟨2024, 3, 31⟩ ⟨2024, 3, 15⟩).toNat 15 = some 50
    ∧ cell (compute_balance_compared
        [((⟨2024, 3, 15⟩ : CalDate), (50 : ℚ)), (⟨2024, 2, 15⟩, 40)] ⟨2024, 3, 31⟩)
        (calculate_month_difference ⟨2024, 3, 31⟩ ⟨2024, 2, 15⟩).toNat 15 = some 40 :=
  ⟨⟨by decide, by decide, by decide⟩, by decide, by decide,
   (month_grid_placement _ ⟨2024, 3, 31⟩ (by decide) (by decide) (by decide)).1
     (⟨2024, 3, 15⟩, 50) (by decide),
   (month_grid_placement _ ⟨2024, 3, 31⟩ (by decide) (by decide) (by decide)).1
     (⟨2024, 2, 15⟩, 40) (by decide)⟩
